import Mathlib

set_option maxRecDepth 100000

/-!
Verification of the line-delimited JSON-RPC harness in
`scripts/test-droid-session-apikey-reuse.py`.

The development shallowly embeds the harness functions (`write_req`,
`read_line`, `wait_for_response`, `capture_assistant_text`, `stop_proc`)
as pure Lean functions.  Inbound traffic and wall-clock time are made
explicit: every loop iteration of the two read loops is driven by a
`ReadEvent` describing what the environment did during that iteration
(what `p.poll()` reported, whether `select` signalled readiness, what
`readline` produced, and how much wall-clock time the read consumed).
Time is modelled as an exact natural number of time units; the Python
floats carry real durations, and none of the properties verified here
depend on rounding.

Python data reaching the harness through `json.loads` is modelled by the
inductive type `PyVal` (JSON numbers restricted to integers: no claim
involves floating point).  The Python `json` library functions used by
the source (`json.dumps(..., ensure_ascii=False)` and `json.loads`) are
modelled from their documented behaviour by `json_dumps` / `parseJson`
below, including string escaping and the one-object-per-line framing.
-/

/-- Python exceptions that the embedded code paths can raise. -/
inductive PyErr where
  | attributeError
  | timeoutExpired
  | processLookup
  | osError
deriving DecidableEq, Repr

mutual
/-- A Python value as produced by `json.loads`: strings, integers,
booleans, `None`, lists and string-keyed dicts.  JSON numbers are
restricted to integers (no claim involves floating point). -/
inductive PyVal where
  | str (s : String)
  | int (n : Int)
  | bool (b : Bool)
  | null
  | arr (elems : PyElems)
  | obj (fields : PyFields)
deriving DecidableEq, Repr

/-- The elements of a Python list value. -/
inductive PyElems where
  | nil
  | cons (hd : PyVal) (tl : PyElems)
deriving DecidableEq, Repr

/-- The key/value entries of a Python dict value, in insertion order. -/
inductive PyFields where
  | nil
  | cons (key : String) (val : PyVal) (tl : PyFields)
deriving DecidableEq, Repr
end

/-- First value stored under a key.  Dicts built by `parseJson` and by the
harness have unique keys, so this agrees with Python dict lookup. -/
def pyLookup : PyFields → String → Option PyVal
  | .nil, _ => none
  | .cons k v tl, key => if k = key then some v else pyLookup tl key

/-- Python `d.get(key)`: `None` when the key is absent; raises
`AttributeError` when the receiver is not a dict. -/
def pyGet : PyVal → String → Except PyErr PyVal
  | .obj fs, k => .ok ((pyLookup fs k).getD .null)
  | _, _ => .error .attributeError

/-- The value `d.get(key)` yields on a dict, `None` otherwise (total
companion of `pyGet`, used to state properties). -/
def pyGetD (v : PyVal) (k : String) : PyVal :=
  match v with
  | .obj fs => (pyLookup fs k).getD .null
  | _ => .null

/-- Python truthiness of a value. -/
def pyTruthy : PyVal → Bool
  | .str s => s != ""
  | .int n => n != 0
  | .bool b => b
  | .null => false
  | .arr .nil => false
  | .arr (.cons _ _) => true
  | .obj .nil => false
  | .obj (.cons _ _ _) => true

/-- Python `v == lit` for a string literal `lit`: string equality when `v`
is a string, `False` for every other type. -/
def pyEqStr (v : PyVal) (s : String) : Bool :=
  match v with
  | .str t => t == s
  | _ => false

/-- JSON whitespace, as skipped by `json.loads`. -/
def isJsonWs (c : Char) : Bool :=
  c == ' ' || c == '\t' || c == '\n' || c == '\r'

/-- Drop leading JSON whitespace. -/
def skipWs (cs : List Char) : List Char := cs.dropWhile isJsonWs

/-- Whitespace removed by Python `str.strip()` (the ASCII part, which is
all the harness traffic can contain). -/
def isPyWs (c : Char) : Bool :=
  c == ' ' || c == '\t' || c == '\n' || c == '\r' || c.toNat == 11 || c.toNat == 12

/-- Python `s.strip()` restricted to ASCII whitespace. -/
def pyStrip (s : String) : String :=
  String.mk (((s.toList.dropWhile isPyWs).reverse.dropWhile isPyWs).reverse)

/-- Decimal digit character. -/
def digitChar (d : Nat) : Char := Char.ofNat (48 + d)

/-- Little-endian decimal digits of `n`, with fuel (`fuel ≥ n` suffices). -/
def natDigitsRev : Nat → Nat → List Char
  | _, 0 => []
  | 0, _ + 1 => []
  | f + 1, n + 1 => digitChar ((n + 1) % 10) :: natDigitsRev f ((n + 1) / 10)

/-- Decimal rendering of a natural number. -/
def natChars (n : Nat) : List Char :=
  if n = 0 then ['0'] else (natDigitsRev n n).reverse

/-- Decimal rendering of an integer, as emitted by `json.dumps`. -/
def intChars : Int → List Char
  | .ofNat n => natChars n
  | .negSucc m => '-' :: natChars (m + 1)

/-- Lower-case hexadecimal digit character. -/
def hexDigitChar (d : Nat) : Char :=
  if d < 10 then Char.ofNat (48 + d) else Char.ofNat (87 + d)

/-- How `json.dumps(..., ensure_ascii=False)` escapes one character of a
string: `"` and `\` get a backslash escape, the named control characters
get their short escapes, the remaining control characters get `\u00XX`,
and everything else is emitted literally. -/
def escChar (c : Char) : List Char :=
  if c == '"' then ['\\', '"']
  else if c == '\\' then ['\\', '\\']
  else if c == '\n' then ['\\', 'n']
  else if c == '\r' then ['\\', 'r']
  else if c == '\t' then ['\\', 't']
  else if c.toNat == 8 then ['\\', 'b']
  else if c.toNat == 12 then ['\\', 'f']
  else if c.toNat < 32 then
    ['\\', 'u', '0', '0', hexDigitChar (c.toNat / 16), hexDigitChar (c.toNat % 16)]
  else [c]

/-- Escape a character list for a JSON string body. -/
def escChars (cs : List Char) : List Char := cs.foldr (fun c acc => escChar c ++ acc) []

/-- Escape a string for a JSON string body. -/
def escString (s : String) : List Char := escChars s.toList

mutual
/-- Characters of `json.dumps(v, ensure_ascii=False)` (default separators,
so `", "` between items and `": "` after keys). -/
def dumpChars : PyVal → List Char
  | .str s => '"' :: (escString s ++ ['"'])
  | .int n => intChars n
  | .bool true => ['t', 'r', 'u', 'e']
  | .bool false => ['f', 'a', 'l', 's', 'e']
  | .null => ['n', 'u', 'l', 'l']
  | .arr .nil => ['[', ']']
  | .arr (.cons v tl) => '[' :: (dumpChars v ++ dumpElemsRest tl)
  | .obj .nil => ['{', '}']
  | .obj (.cons k v tl) =>
      '{' :: '"' :: (escString k ++ '"' :: ':' :: ' ' :: (dumpChars v ++ dumpFieldsRest tl))

/-- Serialization of the remaining list elements, starting at a `", "`
separator (or the closing bracket). -/
def dumpElemsRest : PyElems → List Char
  | .nil => [']']
  | .cons v tl => ',' :: ' ' :: (dumpChars v ++ dumpElemsRest tl)

/-- Serialization of the remaining dict entries, starting at a `", "`
separator (or the closing brace). -/
def dumpFieldsRest : PyFields → List Char
  | .nil => ['}']
  | .cons k v tl =>
      ',' :: ' ' :: '"' :: (escString k ++ '"' :: ':' :: ' ' :: (dumpChars v ++ dumpFieldsRest tl))
end

/-- Model of `json.dumps(v, ensure_ascii=False)`. -/
def json_dumps (v : PyVal) : String := String.mk (dumpChars v)

/-- `write_req` (source lines 34-37): serialize the request and write it
followed by a single newline to the child's stdin.  The value returned is
the exact text written to the wire. -/
def write_req (req : PyVal) : String := json_dumps req ++ "\n"

/-- Value of a hexadecimal digit character (0 on non-hex input, which
`parseJson` only meets on lines that are invalid anyway). -/
def hexVal (c : Char) : Nat :=
  if '0' ≤ c && c ≤ '9' then c.toNat - 48
  else if 'a' ≤ c && c ≤ 'f' then c.toNat - 87
  else if 'A' ≤ c && c ≤ 'F' then c.toNat - 55
  else 0

/-- Translation of a single-character JSON escape. -/
def unescMap : Char → Option Char
  | 'n' => some '\n'
  | 't' => some '\t'
  | 'r' => some '\r'
  | 'b' => some (Char.ofNat 8)
  | 'f' => some (Char.ofNat 12)
  | '"' => some '"'
  | '\\' => some '\\'
  | '/' => some '/'
  | _ => none

/-- Parse the body of a JSON string after the opening quote, returning the
decoded characters and the input after the closing quote. -/
def parseStrChars : List Char → Option (List Char × List Char)
  | [] => none
  | '"' :: rest => some ([], rest)
  | '\\' :: 'u' :: h1 :: h2 :: h3 :: h4 :: rest =>
      (parseStrChars rest).map (fun p =>
        (Char.ofNat (4096 * hexVal h1 + 256 * hexVal h2 + 16 * hexVal h3 + hexVal h4) :: p.1,
         p.2))
  | '\\' :: e :: rest =>
      match unescMap e with
      | none => none
      | some c => (parseStrChars rest).map (fun p => (c :: p.1, p.2))
  | c :: rest => (parseStrChars rest).map (fun p => (c :: p.1, p.2))

/-- Decimal digit test. -/
def isDigitChar (c : Char) : Bool := '0' ≤ c && c ≤ '9'

/-- Value of a big-endian digit string. -/
def digitsToNat (ds : List Char) : Nat := ds.foldl (fun a c => 10 * a + (c.toNat - 48)) 0

/-- Python dict insertion `d[k] = v`: replace in place when the key
exists, append otherwise. -/
def fieldsInsert : PyFields → String → PyVal → PyFields
  | .nil, k, v => .cons k v .nil
  | .cons k0 v0 tl, k, v =>
      if k0 = k then .cons k0 v tl else .cons k0 v0 (fieldsInsert tl k v)

/-- Append one element at the end of a list value. -/
def elemsSnoc : PyElems → PyVal → PyElems
  | .nil, v => .cons v .nil
  | .cons h tl, v => .cons h (elemsSnoc tl v)

mutual
/-- Fueled recursive-descent parser for one JSON value, modelling
`json.loads` on the grammar the harness can meet. -/
def parseVal : Nat → List Char → Option (PyVal × List Char)
  | 0, _ => none
  | f + 1, cs =>
    match cs with
    | '"' :: rest => (parseStrChars rest).map (fun p => (.str (String.mk p.1), p.2))
    | '{' :: rest =>
        match skipWs rest with
        | '}' :: r2 => some (.obj .nil, r2)
        | r2 => parseFieldsFrom f r2 .nil
    | '[' :: rest =>
        match skipWs rest with
        | ']' :: r2 => some (.arr .nil, r2)
        | r2 => parseElemsFrom f r2 .nil
    | 't' :: 'r' :: 'u' :: 'e' :: rest => some (.bool true, rest)
    | 'f' :: 'a' :: 'l' :: 's' :: 'e' :: rest => some (.bool false, rest)
    | 'n' :: 'u' :: 'l' :: 'l' :: rest => some (.null, rest)
    | '-' :: rest =>
        match rest.span isDigitChar with
        | ([], _) => none
        | (ds, r) => some (.int (-(digitsToNat ds : Int)), r)
    | c :: rest =>
        if isDigitChar c then
          match (c :: rest).span isDigitChar with
          | (ds, r) => some (.int (digitsToNat ds), r)
        else none
    | [] => none

/-- Parse the members of a JSON object, positioned at the opening quote of
the next key; `acc` holds the entries already read. -/
def parseFieldsFrom : Nat → List Char → PyFields → Option (PyVal × List Char)
  | 0, _, _ => none
  | f + 1, cs, acc =>
    match cs with
    | '"' :: rest =>
      match parseStrChars rest with
      | none => none
      | some (kcs, r1) =>
        match skipWs r1 with
        | ':' :: r2 =>
          match parseVal f (skipWs r2) with
          | none => none
          | some (v, r3) =>
            match skipWs r3 with
            | ',' :: r4 => parseFieldsFrom f (skipWs r4) (fieldsInsert acc (String.mk kcs) v)
            | '}' :: r4 => some (.obj (fieldsInsert acc (String.mk kcs) v), r4)
            | _ => none
        | _ => none
    | _ => none

/-- Parse the elements of a JSON array, positioned at the start of the
next element; `acc` holds the elements already read. -/
def parseElemsFrom : Nat → List Char → PyElems → Option (PyVal × List Char)
  | 0, _, _ => none
  | f + 1, cs, acc =>
    match parseVal f cs with
    | none => none
    | some (v, r1) =>
      match skipWs r1 with
      | ',' :: r2 => parseElemsFrom f (skipWs r2) (elemsSnoc acc v)
      | ']' :: r2 => some (.arr (elemsSnoc acc v), r2)
      | _ => none
end

/-- Model of `json.loads` on one line: skip surrounding whitespace, parse
one value, and require the input to be exhausted; `none` models a raised
`json.JSONDecodeError`. -/
def parseJson (s : String) : Option PyVal :=
  let cs := skipWs s.toList
  match parseVal (cs.length + 1) cs with
  | some (v, rest) => if skipWs rest = [] then some v else none
  | none => none

/-- What the environment presents to one `read_line` call (source lines
40-49): the result of the `p.poll()` check on entry, whether `select`
reported the child's stdout readable within the timeout, and what
`p.stdout.readline()` would return (`""` models end-of-file). -/
structure ReadEnv where
  pollExited : Bool
  selectReady : Bool
  lineRead : String
deriving DecidableEq, Repr

/-- `read_line` (source lines 40-49): return `None` when the process has
already exited, when `select` reports nothing readable within the
timeout, or when `readline` yields the empty string; otherwise return the
line read. -/
def read_line (e : ReadEnv) : Option String :=
  if e.pollExited then none
  else if !e.selectReady then none
  else if e.lineRead = "" then none
  else some e.lineRead

/-- One iteration of a read loop, as driven by the environment: the
`read_line` observation, the wall-clock duration the call consumed, and
what a `p.poll()` check right after the call would report (used by
`capture_assistant_text` when the read yields no line). -/
structure ReadEvent where
  env : ReadEnv
  dur : Nat
  pollAfter : Bool
deriving DecidableEq, Repr

/-- Lines 62-66 of `wait_for_response`, applied to one decoded message:
`some msg` models `return msg`, `none` models falling through to the next
iteration, and an `Except.error` models an uncaught Python exception
(the `try` only protects `json.loads`, so `.get` on a non-dict raises
out of the function). -/
def waitCheck (target : String) (msg : PyVal) : Except PyErr (Option PyVal) :=
  match pyGet msg ("type") with
  | .error e => .error e
  | .ok t1 =>
    if pyEqStr t1 ("response") then
      match pyGet msg ("id") with
      | .error e => .error e
      | .ok i1 =>
        if pyEqStr i1 target then .ok (some msg)
        else
          match pyGet msg ("error") with
          | .error e => .error e
          | .ok e1 =>
            if pyTruthy e1 then
              match pyGet msg ("id") with
              | .error e => .error e
              | .ok i2 => if i2 = PyVal.null then .ok (some msg) else .ok none
            else .ok none
    else .ok none

/-- Outcome of `wait_for_response`: a returned response, a raised
`TimeoutError`, an uncaught exception from the loop body, or the model
artifact of the event trace running out while the loop would continue. -/
inductive WaitOut where
  | resp (msg : PyVal)
  | timeout
  | exn (e : PyErr)
  | stuck
deriving DecidableEq, Repr

/-- The `while` loop of `wait_for_response` (source lines 52-67) driven by
an event trace, with `t` the elapsed time so far.  Each iteration first
checks the absolute deadline `t < T`, then performs one `read_line` —
whose own `select` window is the full `T`, as in the source, so the
event's duration is bounded by `T` rather than by `T - t`.  Returns the
outcome together with the total elapsed time. -/
def waitLoop (target : String) (T : Nat) : List ReadEvent → Nat → WaitOut × Nat
  | [], t => if t < T then (.stuck, t) else (.timeout, t)
  | e :: rest, t =>
    if t < T then
      match read_line e.env with
      | none => waitLoop target T rest (t + e.dur)
      | some line =>
        match parseJson line with
        | none => waitLoop target T rest (t + e.dur)
        | some msg =>
          match waitCheck target msg with
          | .error err => (.exn err, t + e.dur)
          | .ok (some m) => (.resp m, t + e.dur)
          | .ok none => waitLoop target T rest (t + e.dur)
    else (.timeout, t)

/-- `wait_for_response(p, target_id, timeout_s)` over an inbound event
trace, starting the clock at zero. -/
def wait_for_response (target : String) (T : Nat) (evs : List ReadEvent) : WaitOut × Nat :=
  waitLoop target T evs 0

/-- Python `s.endswith(c)` for a single-character suffix `c`: the string
is nonempty and its last character is `c`. -/
def endsWithChar (s : String) (c : Char) : Bool :=
  match s.toList.getLast? with
  | some x => x == c
  | none => false

/-- The completion heuristic on line 91 of the source: the buffer so far,
stripped of surrounding whitespace, ends in terminal punctuation
(`endswith` against the tuple `('.', '!', '?')` of one-character
suffixes), or the unstripped buffer contains a newline. -/
def doneHeuristic (s : String) : Bool :=
  endsWithChar (pyStrip s) '.' || endsWithChar (pyStrip s) '!' || endsWithChar (pyStrip s) '?'
    || s.toList.contains '\n'

/-- Python `str(x)` as applied on line 89 of the source.  Exact for the
scalar values; container values cannot be rendered exactly without a full
`repr` model and are rendered as their JSON serialization instead — the
well-formed protocol traffic all claims quantify over carries only string
fragments, for which this function is Python-exact. -/
def pyStrCoerce : PyVal → String
  | .str s => s
  | .int n => String.mk (intChars n)
  | .bool true => String.mk ['T', 'r', 'u', 'e']
  | .bool false => String.mk ['F', 'a', 'l', 's', 'e']
  | .null => String.mk ['N', 'o', 'n', 'e']
  | .arr es => json_dumps (.arr es)
  | .obj fs => json_dumps (.obj fs)

/-- Lines 83-89 of `capture_assistant_text`, applied to one decoded
message: `some frag` when the message is an assistant text-delta
notification carrying fragment `frag` (after the `or ''` and `str(...)`
coercions), `none` when the message is skipped, and an `Except.error`
when a `.get` raises (`msg` not a dict, or a truthy non-dict under
`params` / `notification`). -/
def capBody (msg : PyVal) : Except PyErr (Option String) :=
  match pyGet msg ("type") with
  | .error e => .error e
  | .ok t1 =>
    if pyEqStr t1 ("notification") then
      match pyGet msg ("method") with
      | .error e => .error e
      | .ok m1 =>
        if pyEqStr m1 ("droid.session_notification") then
          match pyGet msg ("params") with
          | .error e => .error e
          | .ok ps0 =>
            let ps := if pyTruthy ps0 then ps0 else .obj .nil
            match pyGet ps ("notification") with
            | .error e => .error e
            | .ok n0 =>
              let notif := if pyTruthy n0 then n0 else .obj .nil
              match pyGet notif ("type") with
              | .error e => .error e
              | .ok ty =>
                if pyEqStr ty ("assistant_text_delta") then
                  match pyGet notif ("textDelta") with
                  | .error e => .error e
                  | .ok d => .ok (some (pyStrCoerce (if pyTruthy d then d else .str (""))))
                else .ok none
        else .ok none
    else .ok none

/-- Why `capture_assistant_text` returned: the completion heuristic fired
right after appending a fragment, the process was observed exited after
an empty read, the absolute deadline passed, or (model artifact) the
event trace ran out while the loop would continue. -/
inductive CapWhy where
  | early
  | procExited
  | timedOut
  | stuck
deriving DecidableEq, Repr

/-- Outcome of `capture_assistant_text`: the returned text with the exit
reason, or an uncaught exception from the loop body. -/
inductive CapOut where
  | text (s : String) (why : CapWhy)
  | exn (e : PyErr)
deriving DecidableEq, Repr

/-- The `while` loop of `capture_assistant_text` (source lines 70-93)
driven by an event trace, with `t` the elapsed time and `out` the list of
fragments appended so far. -/
def capLoop (T : Nat) : List ReadEvent → Nat → List String → CapOut × Nat
  | [], t, out =>
      if t < T then (.text (String.join out) .stuck, t)
      else (.text (String.join out) .timedOut, t)
  | e :: rest, t, out =>
    if t < T then
      match read_line e.env with
      | none =>
          if e.pollAfter then (.text (String.join out) .procExited, t + e.dur)
          else capLoop T rest (t + e.dur) out
      | some line =>
        match parseJson line with
        | none => capLoop T rest (t + e.dur) out
        | some msg =>
          match capBody msg with
          | .error err => (.exn err, t + e.dur)
          | .ok none => capLoop T rest (t + e.dur) out
          | .ok (some frag) =>
            if doneHeuristic (String.join (out ++ [frag])) then
              (.text (String.join (out ++ [frag])) .early, t + e.dur)
            else capLoop T rest (t + e.dur) (out ++ [frag])
    else (.text (String.join out) .timedOut, t)

/-- `capture_assistant_text(p, timeout_s)` over an inbound event trace,
starting with an empty buffer and the clock at zero. -/
def capture_assistant_text (T : Nat) (evs : List ReadEvent) : CapOut × Nat :=
  capLoop T evs 0 []

/-- Nondeterministic environment of one `stop_proc` call: whether the
handle has a stdin stream, whether closing it raises, whether the child
honours SIGTERM within the 3-second grace window, and whether signalling
an already-dead process raises `ProcessLookupError` (it may instead be a
no-op when the exit status was already reaped). -/
structure StopEnv where
  stdinPresent : Bool
  closeRaises : Bool
  exitsOnTerm : Bool
  termRaisesWhenDead : Bool
  killRaisesWhenDead : Bool
deriving DecidableEq, Repr

/-- `p.stdin.close()`: may raise; never changes process liveness. -/
def closeOp (e : StopEnv) (alive : Bool) : Except PyErr Bool :=
  if e.closeRaises then .error .osError else .ok alive

/-- `p.terminate()`: delivers SIGTERM to a live process (death, if any,
is observed by the subsequent `wait`); on a dead process it either raises
`ProcessLookupError` or does nothing. -/
def terminateOp (e : StopEnv) (alive : Bool) : Except PyErr Bool :=
  if alive then .ok true
  else if e.termRaisesWhenDead then .error .processLookup else .ok false

/-- `p.wait(timeout=3)`: returns once the child is dead — immediately if
it already was, or because it honoured SIGTERM within the grace window —
and raises `TimeoutExpired` otherwise, leaving the child alive. -/
def waitOp (e : StopEnv) (alive : Bool) : Except PyErr Bool :=
  if !alive then .ok false
  else if e.exitsOnTerm then .ok false
  else .error .timeoutExpired

/-- `p.kill()`: SIGKILL ends a live process unconditionally; on a dead
process it either raises `ProcessLookupError` or does nothing. -/
def killOp (e : StopEnv) (alive : Bool) : Except PyErr Bool :=
  if alive then .ok false
  else if e.killRaisesWhenDead then .error .processLookup else .ok false

/-- `stop_proc` (source lines 96-109): best-effort close of stdin (inner
`try` swallows close errors), then terminate-and-wait; any exception from
that path falls into the outer `except`, which kills and swallows even a
kill failure.  Returns the exception escaping to the caller (if any)
together with the child's liveness after the call. -/
def stop_proc (e : StopEnv) (alive : Bool) : Option PyErr × Bool :=
  let afterClose : Bool :=
    if e.stdinPresent then
      match closeOp e alive with
      | .ok a => a
      | .error _ => alive
    else alive
  let fallback : Bool → Option PyErr × Bool := fun a =>
    match killOp e a with
    | .ok a2 => (none, a2)
    | .error _ => (none, a)
  match terminateOp e afterClose with
  | .error _ => fallback afterClose
  | .ok a1 =>
    match waitOp e a1 with
    | .error _ => fallback a1
    | .ok a2 => (none, a2)

/-- Fragment carried by one inbound message according to the spec's
wording: an assistant text-delta notification of the session-notification
method contributes its (string-coerced, empty-for-falsy) `textDelta`
field; every other message contributes nothing.  Stated with the total
`pyGetD`, independently of the loop implementation. -/
def specFragOf (msg : PyVal) : Option String :=
  if pyEqStr (pyGetD msg ("type")) ("notification")
      && pyEqStr (pyGetD msg ("method")) ("droid.session_notification") then
    let ps := if pyTruthy (pyGetD msg ("params")) then pyGetD msg ("params") else .obj .nil
    let notif :=
      if pyTruthy (pyGetD ps ("notification")) then pyGetD ps ("notification") else .obj .nil
    if pyEqStr (pyGetD notif ("type")) ("assistant_text_delta") then
      some (pyStrCoerce
        (if pyTruthy (pyGetD notif ("textDelta")) then pyGetD notif ("textDelta")
         else .str ("")))
    else none
  else none

/-- The text-delta fragment delivered by one read event, if any: the read
must yield a line, the line must parse, and the message must be an
assistant text-delta notification. -/
def eventDelta (e : ReadEvent) : Option String :=
  match read_line e.env with
  | none => none
  | some line =>
    match parseJson line with
    | none => none
    | some msg => specFragOf msg

/-- The ordered text-delta fragments of an event trace. -/
def deltasOf (evs : List ReadEvent) : List String := evs.filterMap eventDelta

/-- First prefix of the fragment list whose concatenation (after the
already-buffered fragments `acc`) satisfies the completion heuristic;
returns the buffer at the completion point. -/
def firstDone : List String → List String → Option (List String × Nat)
  | _, [] => none
  | acc, f :: fs =>
      if doneHeuristic (String.join (acc ++ [f])) then some (acc ++ [f], 1)
      else (firstDone (acc ++ [f]) fs).map (fun p => (p.1, p.2 + 1))

/-- A well-formed assistant text-delta notification carrying `frag`, as
the remote side would emit it. -/
def notifVal (frag : String) : PyVal :=
  .obj (.cons ("type") (.str ("notification"))
    (.cons ("method") (.str ("droid.session_notification"))
      (.cons ("params")
        (.obj (.cons ("notification")
          (.obj (.cons ("type") (.str ("assistant_text_delta"))
            (.cons ("textDelta") (.str frag) .nil)))
          .nil))
        .nil)))

/-- A read event delivering the serialized form of `notifVal frag` in one
time unit. -/
def mkDeltaEv (frag : String) : ReadEvent :=
  { env := { pollExited := false, selectReady := true,
             lineRead := json_dumps (notifVal frag) ++ "\n" }
    dur := 1
    pollAfter := false }

/-- Whether a value is a Python dict. -/
def isObjV : PyVal → Bool
  | .obj _ => true
  | _ => false

/-- Shape condition under which the message-processing body of
`capture_assistant_text` cannot raise: the decoded value is a dict, and
the values reached under `params` and `params.notification` are dicts
whenever they are truthy (the source replaces falsy ones by `{}`). -/
def capSafe (v : PyVal) : Bool :=
  isObjV v &&
    (let ps := if pyTruthy (pyGetD v ("params")) then pyGetD v ("params") else .obj .nil
     isObjV ps &&
       isObjV (if pyTruthy (pyGetD ps ("notification")) then pyGetD ps ("notification")
               else .obj .nil))

/-- The property `wait_for_response(p, target, T)` guarantees of any
message it returns: it is a response, and either its identifier equals
the awaited one, or its identifier is `None` and it carries a truthy
error descriptor. -/
def goodResponse (target : String) (msg : PyVal) : Prop :=
  pyEqStr (pyGetD msg ("type")) ("response") = true
  ∧ (pyEqStr (pyGetD msg ("id")) target = true
     ∨ (pyGetD msg ("id") = PyVal.null ∧ pyTruthy (pyGetD msg ("error")) = true))

/-- The keys of a dict, in order. -/
def keysF : PyFields → List String
  | .nil => []
  | .cons k _ tl => k :: keysF tl

/-- Whether the keys of a dict entry list are pairwise distinct (always
true of a real Python dict). -/
def nodupKeys : PyFields → Bool
  | .nil => true
  | .cons k _ tl => !((keysF tl).contains k) && nodupKeys tl

/-- Concatenation of dict entry lists. -/
def appendFields : PyFields → PyFields → PyFields
  | .nil, g => g
  | .cons k v tl, g => .cons k v (appendFields tl g)

/-- Concatenation of list-value element lists. -/
def appendElems : PyElems → PyElems → PyElems
  | .nil, g => g
  | .cons v tl, g => .cons v (appendElems tl g)

mutual
/-- A value that a real Python structure can denote: every dict in it has
pairwise-distinct keys. -/
def wfV : PyVal → Bool
  | .arr es => wfE es
  | .obj fs => nodupKeys fs && wfF fs
  | .str _ => true
  | .int _ => true
  | .bool _ => true
  | .null => true

/-- `wfV` on every element. -/
def wfE : PyElems → Bool
  | .nil => true
  | .cons v tl => wfV v && wfE tl

/-- `wfV` on every entry value. -/
def wfF : PyFields → Bool
  | .nil => true
  | .cons _ v tl => wfV v && wfF tl
end

/-- Guard for parsing a serialized value followed by `rest`: after a bare
integer the remainder must not begin with a digit (inside arrays and
objects the remainder begins with a separator or closing bracket, and at
top level it is empty, so the guard is always met where it is used). -/
def intGuard : PyVal → List Char → Prop
  | .int _, rest => ∀ c, rest.head? = some c → isDigitChar c = false
  | _, _ => True

/-- Helper for C8: `stop_proc` always returns without an escaping
exception and always leaves the child dead, from any starting liveness
and under every environment behaviour. -/
theorem stop_proc_spec (e : StopEnv) (alive : Bool) :
    stop_proc e alive = (none, false) := by
  rcases e with ⟨sp, cr, et, tr, kr⟩
  cases alive <;> cases sp <;> cases cr <;> cases et <;> cases tr <;> cases kr <;> rfl

/-- C8: `stop_proc` never lets an exception escape on any path and leaves
no live child process (graceful termination within the grace window, or a
kill); it is idempotent — a second call on the now-dead handle, under any
environment behaviour, again raises nothing and leaves the child dead. -/
theorem c8_stop_proc_silent_idempotent (e e2 : StopEnv) (alive : Bool) :
    (stop_proc e alive).1 = none ∧ (stop_proc e alive).2 = false
    ∧ stop_proc e2 (stop_proc e alive).2 = (none, false) := by
  simp [stop_proc_spec]

/-- C3 counterexample: the process has already exited, yet a complete
line is buffered (`select` reports the stream readable and `readline`
would deliver the line); `read_line` nevertheless returns `None`,
because the `p.poll()` check on entry short-circuits before the stream
is consulted. -/
theorem c3_counterexample :
    read_line { pollExited := true, selectReady := true, lineRead := "ok\n" } = none := by
  decide

/-- C3 (amended): `read_line` returns a line exactly when the process has
not been observed exited on entry, the stream becomes readable within the
timeout, and `readline` yields a nonempty string; it returns `None`
whenever the process has already exited — regardless of buffered output —
or the timeout elapses with nothing readable, or at end-of-file. -/
theorem c3_read_line_amended (e : ReadEnv) :
    (∀ l, read_line e = some l ↔
        (e.pollExited = false ∧ e.selectReady = true ∧ e.lineRead ≠ "" ∧ l = e.lineRead))
    ∧ (read_line e = none ↔
        (e.pollExited = true ∨ e.selectReady = false ∨ e.lineRead = "")) := by
  rcases e with ⟨p, sr, lr⟩
  unfold read_line
  cases p <;> cases sr <;> by_cases h : lr = "" <;> simp_all [eq_comm]

/-- C10: when a read yields no line and the process is then observed to
have exited, `capture_assistant_text` returns the buffered text at once —
the elapsed time grows only by that read's duration, and the rest of the
trace (and the remaining budget until the capture timeout) is never
consumed. -/
theorem c10_capture_returns_on_exit (T t : Nat) (e : ReadEvent) (rest : List ReadEvent)
    (out : List String) (ht : t < T) (hr : read_line e.env = none) (hp : e.pollAfter = true) :
    capLoop T (e :: rest) t out = (.text (String.join out) .procExited, t + e.dur) := by
  simp [capLoop, ht, hr, hp]

/-- Witness for C10 at a concrete input: the process has exited before
the read; the two fragments buffered so far come back immediately. -/
theorem c10_witness :
    capLoop 10 [{ env := { pollExited := true, selectReady := false, lineRead := "" },
                  dur := 1, pollAfter := true }] 0 [("par"), ("tial")]
      = (.text ("partial") .procExited, 1) := by
  have h := c10_capture_returns_on_exit 10 0
    { env := { pollExited := true, selectReady := false, lineRead := "" },
      dur := 1, pollAfter := true } [] [("par"), ("tial")] (by decide) (by decide) rfl
  exact h

/-- C7: the fragments `"3"`, `"."`, `"1"`, `"4"` delivered as four
separate assistant text-delta notifications make the capture complete
early right after the second fragment: the returned text is exactly
`"3."` and the last two events are never consumed (the elapsed time is
the duration of the first two reads only). -/
theorem c7_fragment_edge_case :
    capture_assistant_text 100 [mkDeltaEv ("3"), mkDeltaEv ("."), mkDeltaEv ("1"), mkDeltaEv ("4")]
      = (.text ("3.") .early, 2) := by decide

/-- C5 counterexample: a fragment whose text ends in terminal punctuation
followed by trailing whitespace.  The claim says such a buffer is still
incomplete under an ends-with rule, but the source strips the buffer
before testing `endswith`, so the capture completes early after the first
fragment and the second is never consumed. -/
theorem c5_counterexample :
    capture_assistant_text 100 [mkDeltaEv ("OK. "), mkDeltaEv ("more")]
      = (.text ("OK. ") .early, 1) := by decide

/-- C4 counterexample: the line `5` is valid JSON, so `json.loads` —
the only call protected by the `try` — succeeds, and the subsequent
`msg.get('type')` on the integer raises an `AttributeError` that escapes
`wait_for_response`. -/
theorem c4_counterexample :
    wait_for_response ("1") 10
        [{ env := { pollExited := false, selectReady := true, lineRead := "5\n" },
           dur := 1, pollAfter := false }]
      = (.exn .attributeError, 1) := by decide

/-- C1 counterexample: with timeout `T = 1000`, a garbage line arriving
at time 999 keeps the loop alive, and the next `read_line` — whose
`select` is given the full `T` again, not the remaining budget — blocks
for another 1000, so `TimeoutError` is raised only at elapsed time 1999,
almost `2T`.  Both read durations respect the per-read `select` bound
(999 ≤ 1000 and 1000 ≤ 1000), and the model has no scheduling overhead at
all, so the excess over `T` is the loop's own doing and grows with `T`. -/
theorem c1_counterexample :
    wait_for_response ("1") 1000
        [{ env := { pollExited := false, selectReady := true, lineRead := "zzz\n" },
           dur := 999, pollAfter := false },
         { env := { pollExited := false, selectReady := false, lineRead := "" },
           dur := 1000, pollAfter := false }]
      = (.timeout, 1999)
    ∧ 999 ≤ 1000 ∧ 1000 ≤ 1000 := by decide

/-- Helper: a returned line is exactly what `readline` produced. -/
theorem read_line_some_eq (env : ReadEnv) (l : String) (h : read_line env = some l) :
    l = env.lineRead := by
  unfold read_line at h
  split_ifs at h
  simp_all

/-- Helper for C2: whatever message the per-line check accepts is the
decoded message itself, and it satisfies `goodResponse`. -/
theorem waitCheck_ok_some (target : String) (msg m : PyVal)
    (h : waitCheck target msg = .ok (some m)) : m = msg ∧ goodResponse target msg := by
  cases msg with
  | obj fs =>
    simp only [waitCheck, pyGet] at h
    split_ifs at h with h1 h2 h3 h4 <;> simp_all [goodResponse, pyGetD]
  | str s => simp [waitCheck, pyGet] at h
  | int n => simp [waitCheck, pyGet] at h
  | bool b => simp [waitCheck, pyGet] at h
  | null => simp [waitCheck, pyGet] at h
  | arr es => simp [waitCheck, pyGet] at h

/-- Helper for C2: the property holds from any loop state. -/
theorem waitLoop_resp_good (target : String) (T : Nat) (evs : List ReadEvent) :
    ∀ t msg d, waitLoop target T evs t = (.resp msg, d) → goodResponse target msg := by
  induction evs with
  | nil =>
    intro t msg d h
    unfold waitLoop at h
    split at h <;> simp_all
  | cons e rest ih =>
    intro t msg d h
    rw [waitLoop] at h
    split at h
    · split at h
      · exact ih _ _ _ h
      · split at h
        · exact ih _ _ _ h
        · split at h
          · simp at h
          · rename_i x1 line1 h1 x2 pmsg h2 x3 m hw
            simp only [Prod.mk.injEq, WaitOut.resp.injEq] at h
            rcases waitCheck_ok_some target pmsg m hw with ⟨hm, hg⟩
            obtain ⟨hqm, -⟩ := h
            subst hqm
            rw [hm]
            exact hg
          · exact ih _ _ _ h
    · simp at h

/-- C2: on every inbound sequence, `wait_for_response` only ever returns
a response message whose identifier equals the awaited one, or a response
with a `None` identifier carrying a truthy error descriptor; it never
returns a response with a different non-null identifier and never returns
a notification. -/
theorem c2_wait_returns_only_matching (target : String) (T : Nat) (evs : List ReadEvent)
    (msg : PyVal) (d : Nat) (h : wait_for_response target T evs = (.resp msg, d)) :
    goodResponse target msg :=
  waitLoop_resp_good target T evs 0 msg d h

/-- Witness for C2 at a concrete trace: a matching response preceded by a
notification and a response for a different identifier. -/
theorem c2_witness :
    goodResponse ("1")
      (.obj (.cons ("type") (.str ("response")) (.cons ("id") (.str ("1")) .nil))) :=
  c2_wait_returns_only_matching ("1") 10
    [{ env := { pollExited := false, selectReady := true,
                lineRead := "\x7b\"type\": \"response\", \"id\": \"2\"\x7d\n" },
       dur := 1, pollAfter := false },
     { env := { pollExited := false, selectReady := true,
                lineRead := "\x7b\"type\": \"response\", \"id\": \"1\"\x7d\n" },
       dur := 1, pollAfter := false }]
    (.obj (.cons ("type") (.str ("response")) (.cons ("id") (.str ("1")) .nil)))
    2 (by decide)

/-- Helper for C1 (amended): from any start time not already past `2T`,
with every read bounded by its own `select` window `T`, the loop ends —
response, uncaught exception, timeout, or exhausted trace — with total
elapsed time at most `2T`. -/
theorem waitLoop_elapsed_le_double (target : String) (T : Nat) (evs : List ReadEvent) :
    ∀ t, (∀ e ∈ evs, e.dur ≤ T) → t ≤ 2 * T → (waitLoop target T evs t).2 ≤ 2 * T := by
  induction evs with
  | nil =>
    intro t _ ht
    unfold waitLoop
    split <;> simpa
  | cons e rest ih =>
    intro t hd ht
    have hdur : e.dur ≤ T := hd e (List.mem_cons_self e rest)
    have hd2 : ∀ x ∈ rest, x.dur ≤ T := fun x hx => hd x (List.mem_cons_of_mem e hx)
    rw [waitLoop]
    by_cases hlt : t < T
    · rw [if_pos hlt]
      have ht2 : t + e.dur ≤ 2 * T := by omega
      split
      · exact ih _ hd2 ht2
      · split
        · exact ih _ hd2 ht2
        · split
          · simpa using ht2
          · simpa using ht2
          · exact ih _ hd2 ht2
    · rw [if_neg hlt]
      simpa using ht

/-- C1 (amended): `wait_for_response(p, id, T)` returns or raises within
`2T` of elapsed time — not `T` plus a constant slack — provided each
individual `read_line` call returns within its own `select` window of
`T`.  The loop does check an absolute deadline before each read, but it
hands the full `T` (not the remaining budget) to every `read_line`, so
one extra full read window beyond the deadline is possible, and the
counterexample shows the `2T` bound is approached. -/
theorem c1_wait_elapsed_le_double (target : String) (T : Nat) (evs : List ReadEvent)
    (hd : ∀ e ∈ evs, e.dur ≤ T) :
    (wait_for_response target T evs).2 ≤ 2 * T :=
  waitLoop_elapsed_le_double target T evs 0 hd (Nat.zero_le _)

/-- Witness for C1 (amended) at a concrete input: a silent remote, one
full-window read, return by elapsed time `10 = 2·5`. -/
theorem c1_amended_witness :
    (wait_for_response ("1") 5
        [{ env := { pollExited := false, selectReady := false, lineRead := "" },
           dur := 5, pollAfter := false }]).2 ≤ 10 := by
  have h := c1_wait_elapsed_le_double ("1") 5
      [{ env := { pollExited := false, selectReady := false, lineRead := "" },
         dur := 5, pollAfter := false }] (by decide)
  simpa using h

/-- Helper: a safe message is a dict. -/
theorem capSafe_isObjV (v : PyVal) (h : capSafe v = true) : isObjV v = true := by
  simp only [capSafe, Bool.and_eq_true] at h
  exact h.1

/-- Helper: only dicts satisfy `isObjV`. -/
theorem isObjV_exists (v : PyVal) (h : isObjV v = true) : ∃ g, v = .obj g := by
  cases v <;> first | exact ⟨_, rfl⟩ | simp [isObjV] at h

/-- Helper: the response check of `wait_for_response` cannot raise on a
dict: every `.get` on a dict succeeds. -/
theorem waitCheck_obj_no_error (target : String) (fs : PyFields) (err : PyErr) :
    waitCheck target (.obj fs) ≠ .error err := by
  simp only [waitCheck, pyGet]
  split_ifs <;> simp

/-- Helper: the notification-processing body of `capture_assistant_text`
cannot raise on a safe message. -/
theorem capBody_safe_no_error (msg : PyVal) (hs : capSafe msg = true) (err : PyErr) :
    capBody msg ≠ .error err := by
  rcases isObjV_exists msg (capSafe_isObjV msg hs) with ⟨fs, rfl⟩
  simp only [capSafe, isObjV, Bool.and_eq_true, pyGetD] at hs
  obtain ⟨-, hps, hn⟩ := hs
  rcases isObjV_exists _ hps with ⟨g, hg⟩
  rw [hg] at hn
  simp only [pyGetD] at hn
  rcases isObjV_exists _ hn with ⟨g2, hg2⟩
  simp only [capBody, pyGet]
  rw [hg]
  simp only [pyGet]
  rw [hg2]
  simp only [pyGet]
  split_ifs <;> simp

/-- Helper for C4 (amended): over a trace whose parseable lines all
decode to shape-safe dicts, neither read loop can end in an uncaught
exception, from any loop state. -/
theorem noExnLoops (T : Nat) (target : String) :
    ∀ evs : List ReadEvent,
      (∀ e ∈ evs, ∀ v, parseJson e.env.lineRead = some v → capSafe v = true) →
      (∀ t out err d, capLoop T evs t out ≠ (.exn err, d))
      ∧ (∀ t err d, waitLoop target T evs t ≠ (.exn err, d)) := by
  intro evs
  induction evs with
  | nil =>
    intro _
    constructor
    · intro t out err d h
      unfold capLoop at h
      split at h <;> simp_all
    · intro t err d h
      unfold waitLoop at h
      split at h <;> simp_all
  | cons e rest ih =>
    intro hs
    have hs_e : ∀ v, parseJson e.env.lineRead = some v → capSafe v = true :=
      hs e (List.mem_cons_self e rest)
    have hs2 : ∀ x ∈ rest, ∀ v, parseJson x.env.lineRead = some v → capSafe v = true :=
      fun x hx => hs x (List.mem_cons_of_mem e hx)
    obtain ⟨ihc, ihw⟩ := ih hs2
    constructor
    · intro t out err d h
      rw [capLoop] at h
      split at h
      · split at h
        · split at h
          · simp at h
          · exact ihc _ _ _ _ h
        · split at h
          · exact ihc _ _ _ _ h
          · split at h
            · rename_i x1 line1 hline x2 pmsg hpm x3 err2 herr
              have hl := read_line_some_eq e.env line1 hline
              subst hl
              exact absurd herr (capBody_safe_no_error pmsg (hs_e pmsg hpm) err2)
            · exact ihc _ _ _ _ h
            · split at h
              · simp at h
              · exact ihc _ _ _ _ h
      · simp at h
    · intro t err d h
      rw [waitLoop] at h
      split at h
      · split at h
        · exact ihw _ _ _ h
        · split at h
          · exact ihw _ _ _ h
          · split at h
            · rename_i x1 line1 hline x2 pmsg hpm x3 err2 herr
              have hl := read_line_some_eq e.env line1 hline
              subst hl
              rcases isObjV_exists pmsg (capSafe_isObjV pmsg (hs_e pmsg hpm)) with ⟨fs, rfl⟩
              exact absurd herr (waitCheck_obj_no_error target fs err2)
            · simp at h
            · exact ihw _ _ _ h
      · simp at h

/-- C4 (amended): lines that fail to parse as JSON (non-JSON text,
truncated lines) and parsed dicts of any shape — including dicts missing
the `type` discriminator, as long as any truthy `params` and
`params.notification` values are dicts — are absorbed by both read loops
without an exception; but a line holding a valid JSON *non-object*
(scalar or array) makes the very first `.get` raise an `AttributeError`
that escapes, as the counterexample shows. -/
theorem c4_amended_no_exception (T : Nat) (target : String) (evs : List ReadEvent)
    (hs : ∀ e ∈ evs, ∀ v, parseJson e.env.lineRead = some v → capSafe v = true) :
    (∀ t out err d, capLoop T evs t out ≠ (.exn err, d))
    ∧ (∀ t err d, waitLoop target T evs t ≠ (.exn err, d)) :=
  noExnLoops T target evs hs

/-- Witness for C4 (amended) at a concrete trace: a non-JSON line, a
well-formed notification, and a kind-less JSON object, none of which
raises. -/
theorem c4_amended_witness :
    capLoop 10
        [{ env := { pollExited := false, selectReady := true, lineRead := "garbage\n" },
           dur := 1, pollAfter := false },
         mkDeltaEv ("hi"),
         { env := { pollExited := false, selectReady := true, lineRead := "\x7b\"a\": 1\x7d\n" },
           dur := 1, pollAfter := false }] 0 [] ≠ (.exn .attributeError, 1) := by
  have h := c4_amended_no_exception 10 ("1")
      [{ env := { pollExited := false, selectReady := true, lineRead := "garbage\n" },
         dur := 1, pollAfter := false },
       mkDeltaEv ("hi"),
       { env := { pollExited := false, selectReady := true, lineRead := "\x7b\"a\": 1\x7d\n" },
         dur := 1, pollAfter := false }] ?_
  · exact h.1 0 [] .attributeError 1
  · intro e he v hv
    fin_cases he <;>
      first
        | (exfalso
           revert hv
           rw [show parseJson ("garbage\n") = (none : Option PyVal) from by decide]
           simp)
        | (revert hv
           rw [show parseJson (mkDeltaEv ("hi")).env.lineRead = some (notifVal ("hi")) from by
                decide]
           intro hv
           obtain ⟨rfl⟩ := hv  
           decide)
        | (revert hv
           rw [show parseJson ("\x7b\"a\": 1\x7d\n")
                 = some (.obj (.cons ("a") (.int 1) .nil)) from by decide]
           intro hv
           obtain ⟨rfl⟩ := hv
           decide)

/-- Helper: a successful `.get` returns exactly the total lookup value. -/
theorem pyGet_ok_getD (v : PyVal) (k : String) (x : PyVal) (h : pyGet v k = .ok x) :
    pyGetD v k = x := by
  cases v <;> simp_all [pyGet, pyGetD]

/-- Helper: `.get` never raises on a dict. -/
theorem pyGet_obj_ne_error (fs : PyFields) (k : String) (e : PyErr) :
    pyGet (.obj fs) k ≠ .error e := by
  simp [pyGet]

/-- Helper: `pyGetD` on a dict, as a rewrite that fires only on literal
dict constructors. -/
theorem pyGetD_obj (fs : PyFields) (k : String) :
    pyGetD (.obj fs) k = (pyLookup fs k).getD .null := rfl

/-- Helper for C6: when the loop body consumes a message without raising,
its verdict coincides with the spec-side fragment extraction. -/
theorem capBody_ok_spec (msg : PyVal) (r : Option String) (h : capBody msg = .ok r) :
    specFragOf msg = r := by
  cases msg with
  | str s => simp [capBody, pyGet] at h
  | int n => simp [capBody, pyGet] at h
  | bool b => simp [capBody, pyGet] at h
  | null => simp [capBody, pyGet] at h
  | arr es => simp [capBody, pyGet] at h
  | obj fs =>
    simp only [capBody, pyGet] at h
    simp only [specFragOf, pyGetD_obj]
    split at h
    case isTrue hc1 =>
      split at h
      case isTrue hc2 =>
        rw [if_pos (by rw [Bool.and_eq_true]; exact ⟨hc1, hc2⟩)]
        split at h
        · simp at h
        · rename_i xps n0 heqn
          rw [pyGet_ok_getD _ _ _ heqn]
          split at h
          · simp at h
          · rename_i xty ty heqt
            rw [pyGet_ok_getD _ _ _ heqt]
            split at h
            case isTrue hc3 =>
              rw [if_pos hc3]
              split at h
              · simp at h
              · rename_i xdd dd heqd
                rw [pyGet_ok_getD _ _ _ heqd]
                simp only [Except.ok.injEq] at h
                exact h
            case isFalse hc3 =>
              rw [if_neg hc3]
              simp only [Except.ok.injEq] at h
              exact h
      case isFalse hc2 =>
        simp only [Except.ok.injEq] at h
        rw [if_neg]
        · exact h
        · intro hcc
          rw [Bool.and_eq_true] at hcc
          exact hc2 hcc.2
    case isFalse hc1 =>
      simp only [Except.ok.injEq] at h
      rw [if_neg]
      · exact h
      · intro hcc
        rw [Bool.and_eq_true] at hcc
        exact hc1 hcc.1

/-- Helper for C6: from any loop state, the text that `capture`'s loop
returns is the already-buffered fragments followed by exactly the
text-delta fragments of the consumed prefix of the trace, in order. -/
theorem capLoop_text_concat (T : Nat) (evs : List ReadEvent) :
    ∀ t out s w d, capLoop T evs t out = (.text s w, d) →
      ∃ k, s = String.join (out ++ deltasOf (List.take k evs)) := by
  induction evs with
  | nil =>
    intro t out s w d h
    refine ⟨0, ?_⟩
    unfold capLoop at h
    split at h <;> simp_all [deltasOf]
  | cons e rest ih =>
    intro t out s w d h
    rw [capLoop] at h
    split at h
    · split at h
      · split at h
        · refine ⟨0, ?_⟩
          simp only [Prod.mk.injEq, CapOut.text.injEq] at h
          simp [deltasOf, ← h.1.1]
        · rcases ih _ _ _ _ _ h with ⟨k, hk⟩
          refine ⟨k + 1, ?_⟩
          rename_i x1 hread hpoll
          simpa [deltasOf, eventDelta, hread] using hk
      · split at h
        · rcases ih _ _ _ _ _ h with ⟨k, hk⟩
          refine ⟨k + 1, ?_⟩
          rename_i x1 line1 hread x2 hparse
          simpa [deltasOf, eventDelta, hread, hparse] using hk
        · split at h
          · simp at h
          · rcases ih _ _ _ _ _ h with ⟨k, hk⟩
            refine ⟨k + 1, ?_⟩
            rename_i x1 line1 hread x2 pmsg hparse x3 hbody
            have hspec := capBody_ok_spec pmsg none hbody
            simpa [deltasOf, eventDelta, hread, hparse, hspec] using hk
          · rename_i x1 line1 hread x2 pmsg hparse x3 frag hbody
            have hspec := capBody_ok_spec pmsg (some frag) hbody
            split at h
            · refine ⟨1, ?_⟩
              simp only [Prod.mk.injEq, CapOut.text.injEq] at h
              simp [deltasOf, eventDelta, hread, hparse, hspec, ← h.1.1]
            · rcases ih _ _ _ _ _ h with ⟨k, hk⟩
              refine ⟨k + 1, ?_⟩
              simpa [deltasOf, eventDelta, hread, hparse, hspec, List.append_assoc] using hk
    · refine ⟨0, ?_⟩
      simp only [Prod.mk.injEq, CapOut.text.injEq] at h
      simp [deltasOf, ← h.1.1]

/-- C6: whatever makes `capture_assistant_text` return — early
completion, process exit, or timeout (timeout included: the partial
buffer is returned as a value, never an error) — the returned text is
exactly the ordered concatenation of the `textDelta` fragments of the
assistant text-delta notifications among the consumed prefix of the
inbound events; no fragment is dropped, duplicated or reordered, and
messages of any other type, method or event shape contribute nothing. -/
theorem c6_capture_text_is_delta_concat (T : Nat) (evs : List ReadEvent) (s : String)
    (w : CapWhy) (d : Nat) (h : capture_assistant_text T evs = (.text s w, d)) :
    ∃ k, s = String.join (deltasOf (List.take k evs)) := by
  rcases capLoop_text_concat T evs 0 [] s w d h with ⟨k, hk⟩
  exact ⟨k, by simpa using hk⟩

/-- Witness for C6 at a concrete trace: two fragments and an unrelated
notification, capture ending with the trace (no completion heuristic
fires), text `"ab"`. -/
theorem c6_witness :
    ∃ k, ("ab") = String.join (deltasOf (List.take k
      [mkDeltaEv ("a"),
       { env := { pollExited := false, selectReady := true,
                  lineRead := "\x7b\"type\": \"response\", \"id\": \"9\"\x7d\n" },
         dur := 1, pollAfter := false },
       mkDeltaEv ("b")])) :=
  c6_capture_text_is_delta_concat 100
    [mkDeltaEv ("a"),
     { env := { pollExited := false, selectReady := true,
                lineRead := "\x7b\"type\": \"response\", \"id\": \"9\"\x7d\n" },
       dur := 1, pollAfter := false },
     mkDeltaEv ("b")] ("ab") .stuck 3 (by decide)

/-- Helper: recovering a character from its code point. -/
theorem char_ofNat_toNat (c : Char) : Char.ofNat c.toNat = c := by
  rcases c with ⟨val, valid⟩
  simp only [Char.ofNat, Char.toNat]
  rw [dif_pos]
  · apply Char.ext
    simp only [Char.ofNatAux, UInt32.ofNat', Nat.toUInt32]
    rfl
  · exact valid

/-- Helper: rebuilding a string from its characters. -/
theorem string_mk_toList (s : String) : String.mk s.toList = s := rfl

/-- Helper: `takeWhile`/`dropWhile` along a split whose left part satisfies
the predicate everywhere and whose right part does not start with it. -/
theorem takeWhile_dropWhile_append (p : Char → Bool) :
    ∀ (xs rest : List Char), (∀ c ∈ xs, p c = true) →
      (∀ c, rest.head? = some c → p c = false) →
      (xs ++ rest).takeWhile p = xs ∧ (xs ++ rest).dropWhile p = rest := by
  intro xs
  induction xs with
  | nil =>
    intro rest _ hrest
    cases rest with
    | nil => simp
    | cons r rs =>
      have hr : p r = false := hrest r rfl
      simp [List.takeWhile_cons, List.dropWhile_cons, hr]
  | cons x xs ih =>
    intro rest hall hrest
    have hx : p x = true := hall x (List.mem_cons_self x xs)
    have hall2 : ∀ c ∈ xs, p c = true := fun c hc => hall c (List.mem_cons_of_mem x hc)
    rcases ih rest hall2 hrest with ⟨h1, h2⟩
    simp [List.takeWhile_cons, List.dropWhile_cons, hx, h1, h2]

/-- Helper: `span` along the same split. -/
theorem span_append (p : Char → Bool) (xs rest : List Char)
    (hall : ∀ c ∈ xs, p c = true) (hrest : ∀ c, rest.head? = some c → p c = false) :
    (xs ++ rest).span p = (xs, rest) := by
  rcases takeWhile_dropWhile_append p xs rest hall hrest with ⟨h1, h2⟩
  rw [List.span_eq_take_drop, h1, h2]

/-- Helper: `skipWs` is the identity on input that does not begin with
whitespace. -/
theorem skipWs_of_head (xs : List Char)
    (h : ∀ c, xs.head? = some c → isJsonWs c = false) : skipWs xs = xs := by
  cases xs with
  | nil => rfl
  | cons x tl =>
    have hx := h x rfl
    simp [skipWs, List.dropWhile_cons, hx]

/-- Helper: digit facts, checked over the ten digits. -/
theorem digitChar_toNat : ∀ d, d < 10 → (digitChar d).toNat = 48 + d := by decide

/-- Helper: digit characters are digits. -/
theorem isDigitChar_digitChar : ∀ d, d < 10 → isDigitChar (digitChar d) = true := by decide

/-- Helper: digit characters are not whitespace. -/
theorem isJsonWs_digitChar : ∀ d, d < 10 → isJsonWs (digitChar d) = false := by decide

/-- Helper: digit characters are not brackets. -/
theorem digitChar_ne_brackets : ∀ d, d < 10 →
    digitChar d ≠ ']' ∧ digitChar d ≠ '}' := by decide

/-- Helper: every character emitted by `natDigitsRev` is a digit
character. -/
theorem natDigitsRev_mem : ∀ (f n : Nat) (c : Char), c ∈ natDigitsRev f n →
    ∃ d, d < 10 ∧ c = digitChar d := by
  intro f
  induction f with
  | zero =>
    intro n c hc
    cases n <;> simp [natDigitsRev] at hc
  | succ f ih =>
    intro n c hc
    cases n with
    | zero => simp [natDigitsRev] at hc
    | succ m =>
      rw [natDigitsRev] at hc
      rcases List.mem_cons.mp hc with h | h
      · exact ⟨(m + 1) % 10, Nat.mod_lt _ (by norm_num), h⟩
      · exact ih _ c h

/-- Helper: value of a digit string extended by one digit. -/
theorem digitsToNat_append_digit (xs : List Char) (c : Char) :
    digitsToNat (xs ++ [c]) = 10 * digitsToNat xs + (c.toNat - 48) := by
  simp [digitsToNat, List.foldl_append]

/-- Helper: reading back the little-endian digits of `n` recovers `n`. -/
theorem digitsToNat_natDigitsRev :
    ∀ n f, n ≤ f → digitsToNat ((natDigitsRev f n).reverse) = n := by
  intro n
  induction n using Nat.strong_induction_on with
  | _ n ih =>
    intro f hf
    cases n with
    | zero => cases f <;> simp [natDigitsRev, digitsToNat]
    | succ m =>
      cases f with
      | zero => omega
      | succ f2 =>
        rw [natDigitsRev, List.reverse_cons, digitsToNat_append_digit]
        have hdiv : (m + 1) / 10 < m + 1 := Nat.div_lt_self (Nat.succ_pos m) (by norm_num)
        have hle : (m + 1) / 10 ≤ f2 := by omega
        rw [ih _ hdiv f2 hle, digitChar_toNat _ (Nat.mod_lt _ (by norm_num))]
        omega

/-- Helper: every character of `natChars` is a digit character. -/
theorem natChars_mem (n : Nat) (c : Char) (hc : c ∈ natChars n) :
    ∃ d, d < 10 ∧ c = digitChar d := by
  unfold natChars at hc
  split at hc
  · simp at hc
    exact ⟨0, by norm_num, by rw [hc]; rfl⟩
  · exact natDigitsRev_mem n n c (List.mem_reverse.mp hc)

/-- Helper: the decimal rendering is never empty. -/
theorem natChars_ne_nil (n : Nat) : natChars n ≠ [] := by
  unfold natChars
  split
  · simp
  · rename_i hn
    cases n with
    | zero => omega
    | succ m =>
      rw [natDigitsRev]
      simp

/-- Helper: reading back the decimal rendering of `n` recovers `n`. -/
theorem digitsToNat_natChars (n : Nat) : digitsToNat (natChars n) = n := by
  unfold natChars
  split
  · rename_i hn
    subst hn
    decide
  · exact digitsToNat_natDigitsRev n n (Nat.le_refl n)

/-- Helper: all characters of `natChars` satisfy `isDigitChar`, and none
is whitespace or a closing bracket. -/
theorem natChars_props (n : Nat) (c : Char) (hc : c ∈ natChars n) :
    isDigitChar c = true ∧ isJsonWs c = false ∧ c ≠ ']' ∧ c ≠ '}' := by
  rcases natChars_mem n c hc with ⟨d, hd, rfl⟩
  exact ⟨isDigitChar_digitChar d hd, isJsonWs_digitChar d hd,
    (digitChar_ne_brackets d hd).1, (digitChar_ne_brackets d hd).2⟩

/-- Helper: reading back a hexadecimal digit recovers its value. -/
theorem hexVal_hexDigitChar : ∀ d, d < 16 → hexVal (hexDigitChar d) = d := by decide

/-- Helper: the string-body parser on an unescaped character. -/
theorem parseStrChars_cons_plain (c : Char) (h1 : c ≠ '"') (h2 : c ≠ '\\')
    (tail : List Char) :
    parseStrChars (c :: tail) = (parseStrChars tail).map (fun p => (c :: p.1, p.2)) := by
  rw [parseStrChars.eq_def]
  split <;> simp_all

/-- Helper: the string-body parser undoes the escaping of one character. -/
theorem parseStrChars_escChar (c : Char) (tail : List Char) :
    parseStrChars (escChar c ++ tail) = (parseStrChars tail).map (fun p => (c :: p.1, p.2)) := by
  by_cases h1 : c = '"'
  · subst h1; rfl
  by_cases h2 : c = '\\'
  · subst h2; rfl
  by_cases h3 : c = '\n'
  · subst h3; rfl
  by_cases h4 : c = '\r'
  · subst h4; rfl
  by_cases h5 : c = '\t'
  · subst h5; rfl
  by_cases h6 : c.toNat = 8
  · have hc : c = Char.ofNat 8 := by rw [← h6, char_ofNat_toNat]
    subst hc; rfl
  by_cases h7 : c.toNat = 12
  · have hc : c = Char.ofNat 12 := by rw [← h7, char_ofNat_toNat]
    subst hc; rfl
  by_cases h8 : c.toNat < 32
  · have hesc : escChar c =
        ['\\', 'u', '0', '0', hexDigitChar (c.toNat / 16), hexDigitChar (c.toNat % 16)] := by
      unfold escChar
      simp only [beq_iff_eq, h1, h2, h3, h4, h5, if_false]
      rw [if_neg (by simpa using h6), if_neg (by simpa using h7), if_pos h8]
    rw [hesc]
    show (parseStrChars tail).map (fun p =>
        (Char.ofNat (4096 * hexVal '0' + 256 * hexVal '0'
            + 16 * hexVal (hexDigitChar (c.toNat / 16))
            + hexVal (hexDigitChar (c.toNat % 16))) :: p.1, p.2))
      = (parseStrChars tail).map (fun p => (c :: p.1, p.2))
    rw [hexVal_hexDigitChar _ (by omega), hexVal_hexDigitChar _ (Nat.mod_lt _ (by norm_num))]
    rw [show (4096 * hexVal '0' + 256 * hexVal '0' + 16 * (c.toNat / 16) + c.toNat % 16)
          = c.toNat from by
        rw [show hexVal '0' = 0 from rfl]
        omega]
    rw [char_ofNat_toNat]
  · have hesc : escChar c = [c] := by
      unfold escChar
      simp only [beq_iff_eq, h1, h2, h3, h4, h5, if_false]
      rw [if_neg (by simpa using h6), if_neg (by simpa using h7), if_neg h8]
    rw [hesc]
    exact parseStrChars_cons_plain c h1 h2 tail

/-- Helper: the string-body parser undoes the escaping of a whole string
body and stops at the closing quote. -/
theorem parseStrChars_esc (cs : List Char) (rest : List Char) :
    parseStrChars (escChars cs ++ ('"' :: rest)) = some (cs, rest) := by
  induction cs with
  | nil => rfl
  | cons c cs ih =>
    have hstep : escChars (c :: cs) = escChar c ++ escChars cs := by
      simp [escChars]
    rw [hstep, List.append_assoc, parseStrChars_escChar, ih]
    rfl

/-- Helper: the serialization of any value begins with a character that is
not whitespace, not a closing bracket and not a closing brace. -/
theorem dumpChars_head (v : PyVal) : ∃ c cs2, dumpChars v = c :: cs2 ∧
    isJsonWs c = false ∧ c ≠ ']' ∧ c ≠ '}' := by
  cases v with
  | int n =>
    cases n with
    | ofNat m =>
      have hne := natChars_ne_nil m
      rcases List.exists_cons_of_ne_nil hne with ⟨c, cs2, hc⟩
      have hmem : c ∈ natChars m := by rw [hc]; exact List.mem_cons_self c cs2
      rcases natChars_props m c hmem with ⟨-, hws, hb1, hb2⟩
      exact ⟨c, cs2, by simpa [dumpChars, intChars] using hc, hws, hb1, hb2⟩
    | negSucc m => exact ⟨_, _, rfl, by decide⟩
  | str s => exact ⟨_, _, rfl, by decide⟩
  | bool b => cases b <;> exact ⟨_, _, rfl, by decide⟩
  | null => exact ⟨_, _, rfl, by decide⟩
  | arr es => cases es <;> exact ⟨_, _, rfl, by decide⟩
  | obj fs => cases fs <;> exact ⟨_, _, rfl, by decide⟩

/-- Helper: no whitespace skipping happens in front of a serialized
value. -/
theorem skipWs_dump (v : PyVal) (r : List Char) :
    skipWs (dumpChars v ++ r) = dumpChars v ++ r := by
  rcases dumpChars_head v with ⟨c, cs2, hc, hws, -, -⟩
  apply skipWs_of_head
  intro c2 hc2
  rw [hc] at hc2
  simp at hc2
  exact hc2 ▸ hws

/-- Helper: the remaining-entries serialization starts with a comma or the
closing brace. -/
theorem dumpFieldsRest_head (tl : PyFields) : ∃ c cs2, dumpFieldsRest tl = c :: cs2 ∧
    isDigitChar c = false ∧ isJsonWs c = false := by
  cases tl with
  | nil => exact ⟨'}', _, rfl, by decide, by decide⟩
  | cons k v tl => exact ⟨',', _, rfl, by decide, by decide⟩

/-- Helper: the remaining-elements serialization starts with a comma or
the closing bracket. -/
theorem dumpElemsRest_head (tl : PyElems) : ∃ c cs2, dumpElemsRest tl = c :: cs2 ∧
    isDigitChar c = false ∧ isJsonWs c = false := by
  cases tl with
  | nil => exact ⟨']', _, rfl, by decide, by decide⟩
  | cons v tl => exact ⟨',', _, rfl, by decide, by decide⟩

/-- Helper: the integer-continuation guard holds whenever the remainder
does not start with a digit. -/
theorem intGuard_of_head (v : PyVal) (X : List Char)
    (h : ∀ c, X.head? = some c → isDigitChar c = false) : intGuard v X := by
  cases v <;> simp [intGuard]
  exact fun c hc => h c hc

/-- Helper: keys of concatenated entry lists. -/
theorem keysF_append : ∀ (a b : PyFields), keysF (appendFields a b) = keysF a ++ keysF b
  | .nil, b => rfl
  | .cons k v tl, b => by simp [appendFields, keysF, keysF_append tl b]

/-- Helper: concatenation of entry lists is associative. -/
theorem appendFields_assoc : ∀ (a b c : PyFields),
    appendFields (appendFields a b) c = appendFields a (appendFields b c)
  | .nil, b, c => rfl
  | .cons k v tl, b, c => by simp [appendFields, appendFields_assoc tl b c]

/-- Helper: concatenation of element lists is associative. -/
theorem appendElems_assoc : ∀ (a b c : PyElems),
    appendElems (appendElems a b) c = appendElems a (appendElems b c)
  | .nil, b, c => rfl
  | .cons v tl, b, c => by simp [appendElems, appendElems_assoc tl b c]

/-- Helper: inserting a key absent from a dict appends the entry. -/
theorem fieldsInsert_fresh : ∀ (acc : PyFields) (k : String) (v : PyVal),
    k ∉ keysF acc → fieldsInsert acc k v = appendFields acc (.cons k v .nil)
  | .nil, k, v, _ => rfl
  | .cons k0 v0 tl, k, v, hk => by
    rw [keysF, List.mem_cons] at hk
    push_neg at hk
    rw [fieldsInsert, if_neg (fun he => hk.1 he.symm), appendFields,
      fieldsInsert_fresh tl k v hk.2]

/-- Helper: appending one element via `elemsSnoc`. -/
theorem elemsSnoc_append : ∀ (acc : PyElems) (v : PyVal),
    elemsSnoc acc v = appendElems acc (.cons v .nil)
  | .nil, v => rfl
  | .cons h tl, v => by simp [elemsSnoc, appendElems, elemsSnoc_append tl v]

/-- Helper: the boolean key-distinctness check means `Nodup` keys. -/
theorem nodupKeys_iff : ∀ (fs : PyFields), nodupKeys fs = true ↔ (keysF fs).Nodup
  | .nil => by simp [nodupKeys, keysF]
  | .cons k v tl => by
    rw [nodupKeys, keysF, List.nodup_cons, Bool.and_eq_true, ← nodupKeys_iff tl]
    simp [List.elem_iff]

/-- Helper: the value parser on a digit-initial input takes the digit
span as an integer literal. -/
theorem parseVal_digit_head (f : Nat) (c : Char) (cs ds r : List Char)
    (hc : isDigitChar c = true) (hsp : (c :: cs).span isDigitChar = (ds, r)) :
    parseVal (f + 1) (c :: cs) = some (.int (digitsToNat ds), r) := by
  rw [parseVal.eq_def]
  split
  · simp_all
  · split <;> simp_all <;> (exfalso; revert hc; decide)

/-- Helper: the value parser on a minus-initial input with a nonempty
digit span. -/
theorem parseVal_neg_head (f : Nat) (cs ds r : List Char)
    (hds : ds ≠ []) (hsp : cs.span isDigitChar = (ds, r)) :
    parseVal (f + 1) ('-' :: cs) = some (.int (-(digitsToNat ds : Int)), r) := by
  have hstep : parseVal (f + 1) ('-' :: cs)
      = (match cs.span isDigitChar with
         | ([], _) => none
         | (ds2, r2) => some (.int (-(digitsToNat ds2 : Int)), r2)) := rfl
  rw [hstep, hsp]
  cases ds with
  | nil => exact absurd rfl hds
  | cons d ds2 => rfl

/-- Helper: `skipWs` steps for the concrete separators the serializer
emits. -/
theorem skipWs_space (X : List Char) : skipWs (' ' :: X) = skipWs X := by
  simp [skipWs, List.dropWhile_cons, isJsonWs]

/-- Helper: no skipping before a colon. -/
theorem skipWs_colon (X : List Char) : skipWs (':' :: X) = ':' :: X := by
  simp [skipWs, List.dropWhile_cons, isJsonWs]

/-- Helper: no skipping before a quote. -/
theorem skipWs_quote (X : List Char) : skipWs ('"' :: X) = '"' :: X := by
  simp [skipWs, List.dropWhile_cons, isJsonWs]

/-- Helper: no skipping before the continuation of an object or array. -/
theorem skipWs_fieldsRest (tl : PyFields) (r : List Char) :
    skipWs (dumpFieldsRest tl ++ r) = dumpFieldsRest tl ++ r := by
  rcases dumpFieldsRest_head tl with ⟨c, cs2, hc, -, hws⟩
  apply skipWs_of_head
  intro c2 hc2
  rw [hc] at hc2
  simp at hc2
  exact hc2 ▸ hws

/-- Helper: likewise for arrays. -/
theorem skipWs_elemsRest (tl : PyElems) (r : List Char) :
    skipWs (dumpElemsRest tl ++ r) = dumpElemsRest tl ++ r := by
  rcases dumpElemsRest_head tl with ⟨c, cs2, hc, -, hws⟩
  apply skipWs_of_head
  intro c2 hc2
  rw [hc] at hc2
  simp at hc2
  exact hc2 ▸ hws

/-- Helper: the parser reads back exactly what the serializer emitted —
the value form, the object-members form and the array-elements form —
proved together by strong induction on the parser fuel. -/
theorem parse_dump_main : ∀ f : Nat,
    (∀ (v : PyVal) (rest : List Char), (dumpChars v).length < f → wfV v = true →
       intGuard v rest → parseVal f (dumpChars v ++ rest) = some (v, rest))
    ∧ (∀ (k : String) (v : PyVal) (tl : PyFields) (acc : PyFields) (rest : List Char),
       ('"' :: (escString k ++ '"' :: ':' :: ' ' :: (dumpChars v ++ dumpFieldsRest tl))).length
           < f →
       wfV v = true → wfF tl = true → (keysF acc ++ k :: keysF tl).Nodup →
       parseFieldsFrom f
           ('"' :: (escString k ++ '"' :: ':' :: ' '
             :: (dumpChars v ++ (dumpFieldsRest tl ++ rest)))) acc
         = some (.obj (appendFields acc (.cons k v tl)), rest))
    ∧ (∀ (v : PyVal) (tl : PyElems) (acc : PyElems) (rest : List Char),
       (dumpChars v ++ dumpElemsRest tl).length < f →
       wfV v = true → wfE tl = true →
       parseElemsFrom f (dumpChars v ++ (dumpElemsRest tl ++ rest)) acc
         = some (.arr (appendElems acc (.cons v tl)), rest)) := by
  intro f
  induction f using Nat.strong_induction_on with
  | _ f ih =>
    refine ⟨?_, ?_, ?_⟩
    · intro v rest hlen hwf hguard
      cases f with
      | zero => omega
      | succ f2 =>
        cases v with
        | str s =>
          have hform : dumpChars (.str s) ++ rest
              = '"' :: (escChars s.toList ++ ('"' :: rest)) := by
            simp [dumpChars, escString]
          rw [hform]
          have hstepS : parseVal (f2 + 1) ('"' :: (escChars s.toList ++ ('"' :: rest)))
              = (parseStrChars (escChars s.toList ++ ('"' :: rest))).map
                  (fun p => (.str (String.mk p.1), p.2)) := rfl
          rw [hstepS, parseStrChars_esc]
          simp [string_mk_toList]
        | int n =>
          cases n with
          | ofNat m =>
            have hall : ∀ x ∈ natChars m, isDigitChar x = true :=
              fun x hx => (natChars_props m x hx).1
            have hrest : ∀ x, rest.head? = some x → isDigitChar x = false := by
              intro x hx
              simpa [intGuard] using hguard x hx
            obtain ⟨c, cs2, hnc⟩ := List.exists_cons_of_ne_nil (natChars_ne_nil m)
            have hcd : isDigitChar c = true :=
              hall c (by rw [hnc]; exact List.mem_cons_self c cs2)
            have hsp : (c :: (cs2 ++ rest)).span isDigitChar = (natChars m, rest) := by
              rw [show c :: (cs2 ++ rest) = natChars m ++ rest from by rw [hnc]; simp]
              exact span_append _ _ _ hall hrest
            have hform : dumpChars (.int (Int.ofNat m)) ++ rest = c :: (cs2 ++ rest) := by
              simp [dumpChars, intChars, hnc]
            rw [hform, parseVal_digit_head f2 c (cs2 ++ rest) (natChars m) rest hcd hsp,
              digitsToNat_natChars]
            rfl
          | negSucc m =>
            have hall : ∀ x ∈ natChars (m + 1), isDigitChar x = true :=
              fun x hx => (natChars_props (m + 1) x hx).1
            have hrest : ∀ x, rest.head? = some x → isDigitChar x = false := by
              intro x hx
              simpa [intGuard] using hguard x hx
            have hsp : (natChars (m + 1) ++ rest).span isDigitChar
                = (natChars (m + 1), rest) := span_append _ _ _ hall hrest
            have hform : dumpChars (.int (Int.negSucc m)) ++ rest
                = '-' :: (natChars (m + 1) ++ rest) := by
              simp [dumpChars, intChars]
            rw [hform, parseVal_neg_head f2 _ _ _ (natChars_ne_nil (m + 1)) hsp,
              digitsToNat_natChars]
            simp [Int.negSucc_eq]
        | bool b =>
          cases b with
          | true => rfl
          | false => rfl
        | null => rfl
        | arr es =>
          cases es with
          | nil => rfl
          | cons v2 tl =>
            have hform : dumpChars (.arr (.cons v2 tl)) ++ rest
                = '[' :: (dumpChars v2 ++ (dumpElemsRest tl ++ rest)) := by
              simp [dumpChars]
            rw [hform]
            have hstepA : parseVal (f2 + 1)
                ('[' :: (dumpChars v2 ++ (dumpElemsRest tl ++ rest)))
                = (match skipWs (dumpChars v2 ++ (dumpElemsRest tl ++ rest)) with
                   | ']' :: r2 => some (.arr .nil, r2)
                   | r2 => parseElemsFrom f2 r2 .nil) := rfl
            rw [hstepA, skipWs_dump]
            obtain ⟨c, cs2, hc, -, hb1, -⟩ := dumpChars_head v2
            split
            · rename_i r2 heq
              rw [hc] at heq
              simp at heq
              exact absurd heq.1 hb1
            · have hwf2 : wfV v2 = true ∧ wfE tl = true := by
                simpa [wfV, wfE, Bool.and_eq_true] using hwf
              have hlen2 : (dumpChars v2 ++ dumpElemsRest tl).length < f2 := by
                simp only [dumpChars, List.length_cons, List.length_append] at hlen ⊢
                omega
              exact (ih f2 (Nat.lt_succ_self f2)).2.2 v2 tl .nil rest hlen2 hwf2.1 hwf2.2
        | obj fs =>
          cases fs with
          | nil => rfl
          | cons k v2 tl =>
            have hform : dumpChars (.obj (.cons k v2 tl)) ++ rest
                = '{' :: ('"' :: (escString k ++ '"' :: ':' :: ' '
                    :: (dumpChars v2 ++ (dumpFieldsRest tl ++ rest)))) := by
              simp [dumpChars]
            rw [hform]
            have hstepO : parseVal (f2 + 1)
                ('{' :: ('"' :: (escString k ++ '"' :: ':' :: ' '
                    :: (dumpChars v2 ++ (dumpFieldsRest tl ++ rest)))))
                = (match skipWs ('"' :: (escString k ++ '"' :: ':' :: ' '
                      :: (dumpChars v2 ++ (dumpFieldsRest tl ++ rest)))) with
                   | '}' :: r2 => some (.obj .nil, r2)
                   | r2 => parseFieldsFrom f2 r2 .nil) := rfl
            rw [hstepO, skipWs_quote]
            have hwf2 : (nodupKeys (.cons k v2 tl) && wfF (.cons k v2 tl)) = true := by
              simpa [wfV] using hwf
            rw [Bool.and_eq_true] at hwf2
            have hnd0 : (keysF (.nil : PyFields) ++ k :: keysF tl).Nodup := by
              have hkk := (nodupKeys_iff _).mp hwf2.1
              simpa [keysF] using hkk
            have hwfv2 : (wfV v2 && wfF tl) = true := by
              simpa [wfF] using hwf2.2
            rw [Bool.and_eq_true] at hwfv2
            have hlen2 : ('"' :: (escString k ++ '"' :: ':' :: ' '
                :: (dumpChars v2 ++ dumpFieldsRest tl))).length < f2 := by
              simp only [dumpChars, List.length_cons, List.length_append] at hlen ⊢
              omega
            exact (ih f2 (Nat.lt_succ_self f2)).2.1 k v2 tl .nil rest hlen2
              hwfv2.1 hwfv2.2 hnd0
    · intro k v tl acc rest hlen hwfv hwtl hnd
      cases f with
      | zero => omega
      | succ f2 =>
        have hstepF : parseFieldsFrom (f2 + 1)
            ('"' :: (escString k ++ '"' :: ':' :: ' '
              :: (dumpChars v ++ (dumpFieldsRest tl ++ rest)))) acc
            = (match parseStrChars (escString k ++ '"' :: ':' :: ' '
                  :: (dumpChars v ++ (dumpFieldsRest tl ++ rest))) with
               | none => none
               | some (kcs, r1) =>
                 match skipWs r1 with
                 | ':' :: r2 =>
                   (match parseVal f2 (skipWs r2) with
                    | none => none
                    | some (v2, r3) =>
                      match skipWs r3 with
                      | ',' :: r4 =>
                          parseFieldsFrom f2 (skipWs r4) (fieldsInsert acc (String.mk kcs) v2)
                      | '}' :: r4 => some (.obj (fieldsInsert acc (String.mk kcs) v2), r4)
                      | _ => none)
                 | _ => none) := rfl
        rw [hstepF]
        have hr1 : parseStrChars (escString k ++ '"' :: ':' :: ' '
              :: (dumpChars v ++ (dumpFieldsRest tl ++ rest)))
            = some (k.toList, ':' :: ' ' :: (dumpChars v ++ (dumpFieldsRest tl ++ rest))) :=
          parseStrChars_esc k.toList _
        simp only [hr1]
        simp only [skipWs_colon, skipWs_space, skipWs_dump]
        have hfresh : k ∉ keysF acc := by
          intro hk
          rcases List.nodup_append.mp hnd with ⟨-, -, hdisj⟩
          exact hdisj hk (List.mem_cons_self k (keysF tl))
        have h1 : parseVal f2 (dumpChars v ++ (dumpFieldsRest tl ++ rest))
            = some (v, dumpFieldsRest tl ++ rest) := by
          apply (ih f2 (Nat.lt_succ_self f2)).1 v _ ?_ hwfv ?_
          · simp only [List.length_cons, List.length_append] at hlen ⊢
            omega
          · apply intGuard_of_head
            intro x hx
            rcases dumpFieldsRest_head tl with ⟨c, cs2, hc, hdg, -⟩
            rw [hc] at hx
            simp at hx
            exact hx ▸ hdg
        simp only [h1]
        simp only [skipWs_fieldsRest]
        cases tl with
        | nil =>
          have hform : dumpFieldsRest (.nil : PyFields) ++ rest = '}' :: rest := by
            simp [dumpFieldsRest]
          rw [hform]
          rw [string_mk_toList, fieldsInsert_fresh acc k v hfresh]
          rfl
        | cons k2 v2 tl2 =>
          have hform : dumpFieldsRest (.cons k2 v2 tl2) ++ rest
              = ',' :: ' ' :: '"' :: (escString k2 ++ '"' :: ':' :: ' '
                  :: (dumpChars v2 ++ (dumpFieldsRest tl2 ++ rest))) := by
            simp [dumpFieldsRest]
          rw [hform]
          rw [string_mk_toList, fieldsInsert_fresh acc k v hfresh]
          have hwf3 : (wfV v2 && wfF tl2) = true := by
            simpa [wfF] using hwtl
          rw [Bool.and_eq_true] at hwf3
          have hlen3 : ('"' :: (escString k2 ++ '"' :: ':' :: ' '
              :: (dumpChars v2 ++ dumpFieldsRest tl2))).length < f2 := by
            simp only [dumpFieldsRest, List.length_cons, List.length_append] at hlen ⊢
            omega
          have hnd3 : (keysF (appendFields acc (.cons k v .nil)) ++ k2 :: keysF tl2).Nodup := by
            rw [keysF_append]
            simpa [keysF, List.append_assoc] using hnd
          have hrec := (ih f2 (Nat.lt_succ_self f2)).2.1 k2 v2 tl2
            (appendFields acc (.cons k v .nil)) rest hlen3 hwf3.1 hwf3.2 hnd3
          calc parseFieldsFrom f2
                (skipWs (' ' :: '"' :: (escString k2 ++ '"' :: ':' :: ' '
                  :: (dumpChars v2 ++ (dumpFieldsRest tl2 ++ rest)))))
                (appendFields acc (.cons k v .nil))
              = parseFieldsFrom f2
                ('"' :: (escString k2 ++ '"' :: ':' :: ' '
                  :: (dumpChars v2 ++ (dumpFieldsRest tl2 ++ rest))))
                (appendFields acc (.cons k v .nil)) := by
                rw [skipWs_space, skipWs_quote]
            _ = some (.obj (appendFields (appendFields acc (.cons k v .nil))
                    (.cons k2 v2 tl2)), rest) := hrec
            _ = some (.obj (appendFields acc (.cons k v (.cons k2 v2 tl2))), rest) := by
                rw [appendFields_assoc]
                rfl
    · intro v tl acc rest hlen hwfv hwtl
      cases f with
      | zero => omega
      | succ f2 =>
        have hstepE : parseElemsFrom (f2 + 1) (dumpChars v ++ (dumpElemsRest tl ++ rest)) acc
            = (match parseVal f2 (dumpChars v ++ (dumpElemsRest tl ++ rest)) with
               | none => none
               | some (v2, r1) =>
                 match skipWs r1 with
                 | ',' :: r2 => parseElemsFrom f2 (skipWs r2) (elemsSnoc acc v2)
                 | ']' :: r2 => some (.arr (elemsSnoc acc v2), r2)
                 | _ => none) := rfl
        rw [hstepE]
        have h1 : parseVal f2 (dumpChars v ++ (dumpElemsRest tl ++ rest))
            = some (v, dumpElemsRest tl ++ rest) := by
          apply (ih f2 (Nat.lt_succ_self f2)).1 v _ ?_ hwfv ?_
          · rcases dumpElemsRest_head tl with ⟨c, cs2, hc, -, -⟩
            rw [hc] at hlen
            simp only [List.length_append, List.length_cons] at hlen ⊢
            omega
          · apply intGuard_of_head
            intro x hx
            rcases dumpElemsRest_head tl with ⟨c, cs2, hc, hdg, -⟩
            rw [hc] at hx
            simp at hx
            exact hx ▸ hdg
        simp only [h1]
        simp only [skipWs_elemsRest]
        cases tl with
        | nil =>
          have hform : dumpElemsRest (.nil : PyElems) ++ rest = ']' :: rest := by
            simp [dumpElemsRest]
          rw [hform]
          rw [elemsSnoc_append]
          rfl
        | cons v2 tl2 =>
          have hform : dumpElemsRest (.cons v2 tl2) ++ rest
              = ',' :: ' ' :: (dumpChars v2 ++ (dumpElemsRest tl2 ++ rest)) := by
            simp [dumpElemsRest]
          rw [hform]
          rw [elemsSnoc_append]
          have hwf3 : (wfV v2 && wfE tl2) = true := by
            simpa [wfE] using hwtl
          rw [Bool.and_eq_true] at hwf3
          have hlen3 : (dumpChars v2 ++ dumpElemsRest tl2).length < f2 := by
            simp only [dumpElemsRest, List.length_cons, List.length_append] at hlen ⊢
            omega
          have hrec := (ih f2 (Nat.lt_succ_self f2)).2.2 v2 tl2
            (appendElems acc (.cons v .nil)) rest hlen3 hwf3.1 hwf3.2
          calc parseElemsFrom f2
                (skipWs (' ' :: (dumpChars v2 ++ (dumpElemsRest tl2 ++ rest))))
                (appendElems acc (.cons v .nil))
              = parseElemsFrom f2 (dumpChars v2 ++ (dumpElemsRest tl2 ++ rest))
                (appendElems acc (.cons v .nil)) := by
                rw [skipWs_space, skipWs_dump]
            _ = some (.arr (appendElems (appendElems acc (.cons v .nil))
                    (.cons v2 tl2)), rest) := hrec
            _ = some (.arr (appendElems acc (.cons v (.cons v2 tl2))), rest) := by
                rw [appendElems_assoc]
                rfl

/-- Helper: decoding the serialization of a well-formed value recovers
the value. -/
theorem parseJson_dumps (v : PyVal) (h : wfV v = true) :
    parseJson (json_dumps v) = some v := by
  unfold parseJson json_dumps
  rw [show (String.mk (dumpChars v)).toList = dumpChars v from rfl]
  rw [show skipWs (dumpChars v) = dumpChars v from by simpa using skipWs_dump v []]
  have h1 := (parse_dump_main ((dumpChars v).length + 1)).1 v []
    (Nat.lt_succ_self _) h (intGuard_of_head _ _ (by intro c hc; simp at hc))
  rw [List.append_nil] at h1
  simp only [h1]
  rfl

/-- Helper: the roundtrip also absorbs the newline that `write_req`
appends. -/
theorem parseJson_dumps_line (v : PyVal) (h : wfV v = true) :
    parseJson (json_dumps v ++ "\n") = some v := by
  unfold parseJson json_dumps
  rw [show (String.mk (dumpChars v) ++ "\n").toList = dumpChars v ++ ['\n'] from rfl]
  rw [skipWs_dump v ['\n']]
  have h1 := (parse_dump_main ((dumpChars v ++ ['\n']).length + 1)).1 v ['\n']
    (by simp only [List.length_append]; omega) h
    (intGuard_of_head _ _ (by
      intro c hc
      simp at hc
      rw [← hc]
      decide))
  simp only [h1]
  rfl

/-- Helper: hexadecimal digit characters are never a newline. -/
theorem hexDigitChar_ne_nl : ∀ d, d < 16 → ('\n' : Char) ≠ hexDigitChar d := by decide

/-- Helper: escaping one character emits no literal newline. -/
theorem escChar_no_newline (c : Char) : '\n' ∉ escChar c := by
  unfold escChar
  split_ifs with h1 h2 h3 h4 h5 h6 h7 h8
  · decide
  · decide
  · decide
  · decide
  · decide
  · decide
  · decide
  · simp only [List.mem_cons, List.not_mem_nil, or_false]
    push_neg
    refine ⟨by decide, by decide, by decide, by decide, ?_, ?_⟩
    · exact hexDigitChar_ne_nl _ (by omega)
    · exact hexDigitChar_ne_nl _ (Nat.mod_lt _ (by norm_num))
  · simp only [List.mem_cons, List.not_mem_nil, or_false]
    intro hmem
    rw [← hmem] at h8
    exact h8 (by decide)

/-- Helper: escaping a whole string body emits no literal newline. -/
theorem escChars_no_newline (cs : List Char) : '\n' ∉ escChars cs := by
  induction cs with
  | nil => simp [escChars]
  | cons c tl ih =>
    rw [show escChars (c :: tl) = escChar c ++ escChars tl from rfl]
    rw [List.mem_append]
    push_neg
    exact ⟨escChar_no_newline c, ih⟩

/-- Helper: decimal renderings contain no newline. -/
theorem natChars_no_newline (n : Nat) : '\n' ∉ natChars n := by
  intro hmem
  rcases natChars_mem n _ hmem with ⟨d, hd, hc⟩
  revert hc
  revert hd
  revert d
  decide

/-- Helper: integer renderings contain no newline. -/
theorem intChars_no_newline (n : Int) : '\n' ∉ intChars n := by
  cases n with
  | ofNat m => exact natChars_no_newline m
  | negSucc m =>
    rw [intChars, List.mem_cons]
    push_neg
    exact ⟨by decide, natChars_no_newline (m + 1)⟩

mutual
/-- Helper: serialized values contain no literal newline. -/
theorem dumpChars_no_newline : ∀ v : PyVal, '\n' ∉ dumpChars v
  | .str s => by
    rw [dumpChars, List.mem_cons, List.mem_append]
    push_neg
    exact ⟨by decide, escChars_no_newline _, by decide⟩
  | .int n => intChars_no_newline n
  | .bool true => by decide
  | .bool false => by decide
  | .null => by decide
  | .arr .nil => by decide
  | .arr (.cons v tl) => by
    rw [dumpChars, List.mem_cons, List.mem_append]
    push_neg
    exact ⟨by decide, dumpChars_no_newline v, dumpElemsRest_no_newline tl⟩
  | .obj .nil => by decide
  | .obj (.cons k v tl) => by
    rw [dumpChars, List.mem_cons, List.mem_cons, List.mem_append, List.mem_cons,
      List.mem_cons, List.mem_cons, List.mem_append]
    push_neg
    exact ⟨by decide, by decide, escChars_no_newline _, by decide, by decide, by decide,
      dumpChars_no_newline v, dumpFieldsRest_no_newline tl⟩

/-- Helper: serialized element continuations contain no newline. -/
theorem dumpElemsRest_no_newline : ∀ es : PyElems, '\n' ∉ dumpElemsRest es
  | .nil => by decide
  | .cons v tl => by
    rw [dumpElemsRest, List.mem_cons, List.mem_cons, List.mem_append]
    push_neg
    exact ⟨by decide, by decide, dumpChars_no_newline v, dumpElemsRest_no_newline tl⟩

/-- Helper: serialized entry continuations contain no newline. -/
theorem dumpFieldsRest_no_newline : ∀ fs : PyFields, '\n' ∉ dumpFieldsRest fs
  | .nil => by decide
  | .cons k v tl => by
    rw [dumpFieldsRest, List.mem_cons, List.mem_cons, List.mem_cons, List.mem_append,
      List.mem_cons, List.mem_cons, List.mem_cons, List.mem_append]
    push_neg
    exact ⟨by decide, by decide, by decide, escChars_no_newline _, by decide, by decide,
      by decide, dumpChars_no_newline v, dumpFieldsRest_no_newline tl⟩
end

/-- C9: for every request a Python dict tree can denote (all nested dicts
have distinct keys; string fields may contain newlines, which the encoder
escapes), `write_req` puts exactly one line on the wire: the serialized
text has no embedded newline, the written text is the serialized text
plus one appended newline (newline count of the whole write is exactly
one), and decoding the serialized text recovers the request exactly. -/
theorem c9_write_req_single_line_roundtrip (req : PyVal) (h : wfV req = true) :
    '\n' ∉ (json_dumps req).toList
    ∧ write_req req = json_dumps req ++ "\n"
    ∧ ((write_req req).toList.count '\n') = 1
    ∧ parseJson (json_dumps req) = some req := by
  have hnl : '\n' ∉ (json_dumps req).toList := by
    rw [show (json_dumps req).toList = dumpChars req from rfl]
    exact dumpChars_no_newline req
  refine ⟨hnl, rfl, ?_, parseJson_dumps req h⟩
  rw [show (write_req req).toList = dumpChars req ++ ['\n'] from rfl]
  rw [List.count_append]
  rw [List.count_eq_zero.mpr (by simpa using dumpChars_no_newline req)]
  simp

/-- Witness for C9 at a request whose string field contains a newline. -/
theorem c9_witness :
    '\n' ∉ (json_dumps (.obj (.cons ("text") (.str ("a\nb")) .nil))).toList
    ∧ write_req (.obj (.cons ("text") (.str ("a\nb")) .nil))
        = json_dumps (.obj (.cons ("text") (.str ("a\nb")) .nil)) ++ "\n"
    ∧ ((write_req (.obj (.cons ("text") (.str ("a\nb")) .nil))).toList.count '\n') = 1
    ∧ parseJson (json_dumps (.obj (.cons ("text") (.str ("a\nb")) .nil)))
        = some (.obj (.cons ("text") (.str ("a\nb")) .nil)) :=
  c9_write_req_single_line_roundtrip (.obj (.cons ("text") (.str ("a\nb")) .nil)) (by decide)

/-- Helper: the canonical delta notification is well formed. -/
theorem wfV_notifVal (frag : String) : wfV (notifVal frag) = true := rfl

/-- Helper: a line plus newline is never the empty string. -/
theorem append_nl_ne_empty (s : String) : s ++ "\n" ≠ "" := by
  intro h
  have h2 : (s ++ "\n").toList = [] := by rw [h]; rfl
  rw [show (s ++ "\n").toList = s.toList ++ ['\n'] from rfl] at h2
  simp at h2

/-- Helper: a `mkDeltaEv` read yields its serialized notification line. -/
theorem read_line_mkDeltaEv (frag : String) :
    read_line (mkDeltaEv frag).env = some (json_dumps (notifVal frag) ++ "\n") := by
  unfold read_line mkDeltaEv
  simp [append_nl_ne_empty]

/-- Helper: the capture body accepts the canonical delta notification and
extracts its fragment. -/
theorem capBody_notifVal (frag : String) : capBody (notifVal frag) = .ok (some frag) := by
  by_cases h : frag = ""
  · subst h; rfl
  · unfold capBody notifVal
    simp [pyGet, pyLookup, pyEqStr, pyTruthy, pyStrCoerce, h]

/-- Helper for C5 (amended): on a trace of pure delta events the capture
loop is characterized exactly by `firstDone`: it returns early with the
first prefix whose joined buffer satisfies the heuristic, and keeps
waiting (with the whole text buffered) when no prefix does. -/
theorem capLoop_pure_deltas (T : Nat) :
    ∀ (fs : List String) (acc : List String) (t : Nat), t + fs.length < T →
      capLoop T (fs.map mkDeltaEv) t acc
        = (match firstDone acc fs with
           | some (acc2, n) => (.text (String.join acc2) .early, t + n)
           | none => (.text (String.join (acc ++ fs)) .stuck, t + fs.length)) := by
  intro fs
  induction fs with
  | nil =>
    intro acc t ht
    simp only [List.map_nil, firstDone]
    unfold capLoop
    rw [if_pos (by omega)]
    simp
  | cons f fs ih =>
    intro acc t ht
    simp only [List.map_cons]
    rw [capLoop]
    rw [if_pos (by simp at ht; omega)]
    simp only [read_line_mkDeltaEv, parseJson_dumps_line _ (wfV_notifVal f), capBody_notifVal]
    show (if doneHeuristic (String.join (acc ++ [f])) = true then
            (.text (String.join (acc ++ [f])) .early, t + (mkDeltaEv f).dur)
          else capLoop T (List.map mkDeltaEv fs) (t + (mkDeltaEv f).dur) (acc ++ [f]))
        = _
    rw [show (mkDeltaEv f).dur = 1 from rfl]
    rw [firstDone]
    by_cases hd : doneHeuristic (String.join (acc ++ [f])) = true
    · rw [if_pos hd, if_pos hd]
    · rw [if_neg hd, if_neg hd]
      rw [ih (acc ++ [f]) (t + 1) (by simp at ht ⊢; omega)]
      cases hfd : firstDone (acc ++ [f]) fs with
      | none =>
        simp only [hfd, Option.map_none']
        rw [List.append_assoc]
        simp only [List.singleton_append, List.length_cons]
        rw [show t + 1 + fs.length = t + (fs.length + 1) from by omega]
      | some p =>
        rcases p with ⟨acc2, n⟩
        simp only [hfd, Option.map_some']
        rw [show t + 1 + n = t + (n + 1) from by omega]

/-- C5 (amended): the capture transitions to Done exactly when, right
after a fragment is appended, the whitespace-stripped buffer ends in
`.`, `!` or `?`, or the raw buffer contains a line break — the source
strips the buffer before the `endswith` test, so trailing whitespace is
ignored rather than blocking completion.  Over any pure stream of delta
fragments (within the timeout), the capture returns early at exactly the
first prefix satisfying this rule, with exactly that prefix joined as
text, and keeps capturing whenever no prefix satisfies it. -/
theorem c5_capture_first_done (fs : List String) (T : Nat) (h : fs.length < T) :
    capture_assistant_text T (fs.map mkDeltaEv)
      = (match firstDone [] fs with
         | some (acc, n) => (.text (String.join acc) .early, n)
         | none => (.text (String.join fs) .stuck, fs.length)) := by
  unfold capture_assistant_text
  rw [capLoop_pure_deltas T fs [] 0 (by omega)]
  cases hfd : firstDone [] fs with
  | none => simp
  | some p =>
    rcases p with ⟨acc, n⟩
    simp

/-- Witness for C5 (amended): two fragments, completion fires on the
second. -/
theorem c5_amended_witness :
    capture_assistant_text 10 [mkDeltaEv ("hi"), mkDeltaEv (" there.")]
      = (.text ("hi there.") .early, 2) := by
  have h := c5_capture_first_done [("hi"), (" there.")] 10 (by decide)
  rw [show firstDone [] [("hi"), (" there.")] = some ([("hi"), (" there.")], 2) from by decide]
    at h
  exact h.trans (by decide)
